import Mathlib

/-!
Shallow embedding of the `p2psimpy` peer runtime (`src/p2psimpy/peer.py`)
and topology layer (`src/p2psimpy/simulation.py`), with the theorems that
settle the specification claims about them.

Peers are identified by natural-number ids; the `connections` dict of a
peer is modelled as the list of its keys paired with the connection's
bandwidth, in insertion order (Python dicts preserve insertion order and
have unique keys).  Python exceptions are modelled with `Except PyErr`.
-/

namespace P2PSimpy

abbrev PeerId := Nat

/-- Python exceptions raised by the core. -/
inductive PyErr where
  /-- a failed `assert` statement -/
  | assertionError
  /-- `Exception("No handler for the message %s", ...)` in `Peer.receive` -/
  | noHandler
  /-- `Exception("Not connected")` in `Peer.send` -/
  | notConnected
  /-- `Exception("No storage %s found", ...)` in `Peer.store` -/
  | noStorage
  /-- dict lookup of an absent key -/
  | keyError
  /-- attribute access on an object lacking the attribute -/
  | attributeError
  /-- division by zero (`sum([]) / len([])`) -/
  | zeroDivisionError
  /-- list index out of range -/
  | indexError
deriving DecidableEq, Repr

/-- A message (`p2psimpy.messages`): `isBase` models `isinstance(msg, BaseMessage)`,
`mtype` the concrete Python type used as the dispatch key, `sender` the
authoring peer. -/
structure Msg where
  isBase : Bool
  mtype : Nat
  sender : PeerId
deriving DecidableEq, Repr

/-- The dispatch key of the `Hello` message type. -/
def helloType : Nat := 0

/-- `Hello(sender)`: a `BaseMessage` of type `Hello`. -/
def Hello (p : PeerId) : Msg := ⟨true, helloType, p⟩

/-- A service attached to a peer (`p2psimpy.services.base`): its Python class
name, whether it is a `BaseHandler` / `BaseRunner`, and the message types a
handler declares interest in (`service.messages`). -/
structure Service where
  sname : String
  isHandler : Bool
  isRunner : Bool
  messages : List Nat
deriving DecidableEq, Repr

/-- State of a single `Peer` object.  `conns` models the `connections` dict
(key = remote peer id, value = the connection's bandwidth), `cbCount` the
length of `disconnect_callbacks`, `cbLog` the chronological record of
callback invocations `cb(self, other)`, `handlers` / `runners` the service
dicts keyed by class name, `mhDom` the keys of `mh_map` in insertion order
with `mhMap` giving each key's set of service names, `storageNames` the keys
of the `storage` dict and `storeLog` the record of `storage.add(id, value)`
delegations. -/
structure PeerState where
  pname : String := ""
  conns : List (PeerId × ℚ) := []
  cbCount : Nat := 0
  cbLog : List (PeerId × PeerId) := []
  handlers : List (String × Service) := []
  mhDom : List Nat := []
  mhMap : Nat → Finset String := fun _ => ∅
  runners : List (String × Service) := []
  storageNames : List String := []
  storeLog : List (String × Nat × Nat) := []

/-- The network: every peer id has a peer state. -/
abbrev Net := PeerId → PeerState

def Net.update (σ : Net) (p : PeerId) (ps : PeerState) : Net :=
  fun q => if q = p then ps else σ q

/-- The keys of a peer's `connections` dict. -/
def connKeys (ps : PeerState) : List PeerId := ps.conns.map Prod.fst

/-- `Peer.is_connected(other)`: `other in self.connections`. -/
def isConnected (σ : Net) (a b : PeerId) : Bool := decide (b ∈ connKeys (σ a))

/-- Insertion of a fresh connection: `self.connections[other] = Connection(self, other)`
in `Peer.connect`, with the new connection's bandwidth given by `bw`. -/
def addConn (bw : PeerId → PeerId → ℚ) (σ : Net) (a b : PeerId) : Net :=
  σ.update a { σ a with conns := (σ a).conns ++ [(b, bw a b)] }

/-- Removal of a connection: `del self.connections[other]` in `Peer.disconnect`
(dict keys are unique, so filtering the key out is the deletion). -/
def removeConn (σ : Net) (a b : PeerId) : Net :=
  σ.update a { σ a with conns := (σ a).conns.filter (fun e => decide (e.1 ≠ b)) }

/-- Invocation of every registered disconnect callback with `(self, other)`:
`for cb in self.disconnect_callbacks: cb(self, other)` in `Peer.disconnect`,
recorded by appending one `(a, b)` entry per registered callback to `a`'s
callback log. -/
def fireCallbacks (σ : Net) (a b : PeerId) : Net :=
  σ.update a { σ a with cbLog := (σ a).cbLog ++ List.replicate ((σ a).cbCount) (a, b) }

/-- `Peer.connect(other)` with explicit recursion fuel: if `other` is not yet
a key of `self.connections`, insert a fresh `Connection(self, other)`, then
recurse into `other.connect(self)` only if `other` does not already list
`self`.  `none` means the fuel was exhausted; `connect_terminates` shows fuel
`2` always suffices, matching the bounded mutual recursion of the source. -/
def connectFuel (bw : PeerId → PeerId → ℚ) :
    Nat → Net → PeerId → PeerId → Option Net
  | 0, _, _, _ => none
  | fuel + 1, σ, a, b =>
    if isConnected σ a b then some σ
    else
      if isConnected (addConn bw σ a b) b a then some (addConn bw σ a b)
      else connectFuel bw fuel (addConn bw σ a b) b a

/-- `Peer.connect(other)` as a total function (fuel 2 always suffices). -/
def connect (bw : PeerId → PeerId → ℚ) (σ : Net) (a b : PeerId) : Net :=
  (connectFuel bw 2 σ a b).getD σ

/-- `Peer.disconnect(other)` with explicit recursion fuel: if `other` is a key
of `self.connections`, remove it, recurse into `other.disconnect(self)` only
if `other` still lists `self`, then invoke every registered disconnect
callback with `(self, other)`.  `none` means the fuel was exhausted; fuel `2`
always suffices. -/
def disconnectFuel : Nat → Net → PeerId → PeerId → Option Net
  | 0, _, _, _ => none
  | fuel + 1, σ, a, b =>
    if isConnected σ a b then
      match (if isConnected (removeConn σ a b) b a
             then disconnectFuel fuel (removeConn σ a b) b a
             else some (removeConn σ a b)) with
      | none => none
      | some σ₂ => some (fireCallbacks σ₂ a b)
    else some σ

/-- `Peer.disconnect(other)` as a total function (fuel 2 always suffices). -/
def disconnect (σ : Net) (a b : PeerId) : Net :=
  (disconnectFuel 2 σ a b).getD σ

/-- Bandwidth function used for concrete witnesses: every connection gets
bandwidth 10. -/
def bw₀ : PeerId → PeerId → ℚ := fun _ _ => 10

/-- The empty network: every peer id maps to a fresh peer state. -/
def net₀ : Net := fun _ => {}

/-- Concrete network for witnesses: peers 0 and 1 are symmetrically
connected, and peer 0 has two registered disconnect callbacks. -/
def netC : Net := fun p =>
  if p = 0 then { conns := [(1, 10)], cbCount := 2 }
  else if p = 1 then { conns := [(0, 10)] } else {}

/-- `Peer.send(receiver, msg)`: asserts `msg.sender == self`, raises
`Exception("Not connected")` when `receiver` is not a key of `connections`,
otherwise delegates to `self.connections[receiver].send(msg)` — the returned
pair records that delegation. -/
def send (σ : Net) (p receiver : PeerId) (m : Msg) : Except PyErr (PeerId × Msg) :=
  if m.sender = p then
    if isConnected σ p receiver then .ok (receiver, m)
    else .error .notConnected
  else .error .assertionError

/-- Candidate set of `Peer.gossip`: `set(self.connections.keys()) - except_set`. -/
def gossipSet (σ : Net) (p : PeerId) (E : Finset PeerId) : Finset PeerId :=
  (connKeys (σ p)).toFinset \ E

/-- Contract of `random.sample(population, k)` for `k ≤ len(population)`: the
result has length `k` and is drawn from the population without
replacement (it is a sub-multiset of the population). -/
def ValidSample (sample : List PeerId → Nat → List PeerId) : Prop :=
  ∀ l k, k ≤ l.length →
    (sample l k).length = k ∧ ((sample l k : List PeerId) : Multiset PeerId) ≤ (l : Multiset PeerId)

/-- Sequential `for other in ...: self.send(other, msg)` loop: stops at the
first raised exception, otherwise collects the delegations in order. -/
def sendAll (σ : Net) (p : PeerId) (m : Msg) :
    List PeerId → Except PyErr (List (PeerId × Msg))
  | [] => .ok []
  | r :: rest =>
    match send σ p r m with
    | .error e => .error e
    | .ok x =>
      match sendAll σ p m rest with
      | .error e => .error e
      | .ok xs => .ok (x :: xs)

/-- `Peer.gossip(msg, f, except_set)`: defaults `except_set` to the empty
set, computes the candidate set, draws `min(f, len(candidates))` peers via
`random.sample` (abstracted by the `sample` parameter; the candidate set is
iterated in sorted order, standing for the arbitrary iteration order of a
Python set), and sends `msg` to each. -/
def gossip (sample : List PeerId → Nat → List PeerId) (σ : Net) (p : PeerId)
    (m : Msg) (f : Nat) (except_set : Option (Finset PeerId)) :
    Except PyErr (List (PeerId × Msg)) :=
  let E := except_set.getD ∅
  let gs := gossipSet σ p E
  sendAll σ p m (sample (gs.sort (· ≤ ·)) (min f gs.card))

/-- `Peer.broadcast(msg)`: sends `msg` to every connected peer. -/
def broadcast (σ : Net) (p : PeerId) (m : Msg) : Except PyErr (List (PeerId × Msg)) :=
  sendAll σ p m (connKeys (σ p))

/-- Python dict assignment `d[k] = v` on an association list: overwrite in
place if the key exists, else append. -/
def dictInsert (l : List (String × Service)) (k : String) (v : Service) :
    List (String × Service) :=
  if l.any (fun e => decide (e.1 = k)) then
    l.map (fun e => if e.1 = k then (k, v) else e)
  else l ++ [(k, v)]

/-- Keys of a dict modelled as an association list. -/
def dictKeys (l : List (String × Service)) : List String := l.map Prod.fst

/-- The `for m in service.messages` loop of `Peer.add_service`: for each
declared message type `m`, create `mh_map[m] = set()` if absent, then add the
service name to `mh_map[m]`. -/
def addRoutes (sname : String) :
    List Nat → List Nat → (Nat → Finset String) → List Nat × (Nat → Finset String)
  | [], dom, mp => (dom, mp)
  | m :: rest, dom, mp =>
    addRoutes sname rest (if m ∈ dom then dom else dom ++ [m])
      (fun x => if x = m then insert sname (if m ∈ dom then mp m else ∅) else mp x)

/-- `Peer.add_service(service)`: a `BaseHandler` is registered under its type
name in `handlers` and routed in `mh_map`; a `BaseRunner` is registered in
`runners`; a service may be both. -/
def addService (ps : PeerState) (s : Service) : PeerState :=
  let ps1 :=
    if s.isHandler then
      { ps with handlers := dictInsert ps.handlers s.sname s,
                mhDom := (addRoutes s.sname s.messages ps.mhDom ps.mhMap).1,
                mhMap := (addRoutes s.sname s.messages ps.mhDom ps.mhMap).2 }
    else ps
  if s.isRunner then { ps1 with runners := dictInsert ps1.runners s.sname s } else ps1

/-- Registration of a list of services in order. -/
def addServices (ps : PeerState) (svcs : List Service) : PeerState :=
  svcs.foldl addService ps

/-- A freshly constructed peer: all maps empty. -/
def initPeer (nm : String) : PeerState := { pname := nm }

/-- `Peer.receive(msg)`: asserts the message is a `BaseMessage`, raises when
its type has no `mh_map` entry, otherwise invokes
`self.handlers[service_id].handle_message(msg)` for every service name in
`mh_map[type(msg)]` (a `KeyError` if such a name is not a `handlers` key).
The returned multiset records the `handle_message` invocations, one per
service, each carrying `msg`. -/
def receiveP (ps : PeerState) (m : Msg) : Except PyErr (Multiset (String × Msg)) :=
  if m.isBase then
    if m.mtype ∈ ps.mhDom then
      if ∀ n ∈ ps.mhMap m.mtype, n ∈ dictKeys ps.handlers then
        .ok ((ps.mhMap m.mtype).val.map (fun n => (n, m)))
      else .error .keyError
    else .error .noHandler
  else .error .assertionError

/-- `Peer.store(storage_name, msg_id, msg)`: raises when no storage is
registered under the name, otherwise delegates to the storage's
`add(msg_id, msg)` — recorded by appending to `storeLog`. -/
def store (ps : PeerState) (storage_name : String) (msg_id msg_val : Nat) :
    Except PyErr PeerState :=
  if storage_name ∈ ps.storageNames then
    .ok { ps with storeLog := ps.storeLog ++ [(storage_name, msg_id, msg_val)] }
  else .error .noStorage

/-- `Peer.add_storage(storage_name, storage)`: registers a storage object
under the name (dict assignment, so the key set gains the name if absent). -/
def addStorage (ps : PeerState) (nm : String) : PeerState :=
  if nm ∈ ps.storageNames then ps
  else { ps with storageNames := ps.storageNames ++ [nm] }

/-- Deterministic instance of `random.sample` used for witnesses: take the
first `k` elements. -/
def sample₀ : List PeerId → Nat → List PeerId := fun l k => l.take k

/-- Message of type `1` authored by peer 0, used in witnesses. -/
def msgW : Msg := ⟨true, 1, 0⟩

/-- Handler service used in witnesses: consumes message type 1. -/
def svcH : Service := ⟨"PingHandler", true, false, [1]⟩

/-- Runner-only service used in witnesses. -/
def svcR : Service := ⟨"Pinger", false, true, []⟩

/-- Peer state with one registered storage, used in witnesses. -/
def psW : PeerState := { storageNames := ["chain"] }

/-- The peer operations named by the spec, as a single step type. -/
inductive Op where
  | addService (p : PeerId) (s : Service)
  | connect (a b : PeerId)
  | disconnect (a b : PeerId)
  | receive (p : PeerId) (m : Msg)
  | send (p r : PeerId) (m : Msg)
  | gossip (p : PeerId) (m : Msg) (f : Nat) (E : Option (Finset PeerId))
  | broadcast (p : PeerId) (m : Msg)
  | store (p : PeerId) (nm : String) (i v : Nat)
  | addStorage (p : PeerId) (nm : String)

/-- Effect of each peer operation on the network state.  `receive`, `send`,
`gossip` and `broadcast` do not mutate any peer's dicts in the source (they
log, dispatch to services, or delegate to a `Connection`), so they leave the
state unchanged; `store` mutates only the named storage object (the
`storeLog`), and only when it does not raise. -/
def Op.apply (bw : PeerId → PeerId → ℚ) : Op → Net → Net
  | .addService p s, σ => σ.update p (P2PSimpy.addService (σ p) s)
  | .connect a b, σ => P2PSimpy.connect bw σ a b
  | .disconnect a b, σ => P2PSimpy.disconnect σ a b
  | .receive _ _, σ => σ
  | .send _ _ _, σ => σ
  | .gossip _ _ _ _, σ => σ
  | .broadcast _ _, σ => σ
  | .store p nm i v, σ =>
    match P2PSimpy.store (σ p) nm i v with
    | .ok ps => σ.update p ps
    | .error _ => σ
  | .addStorage p nm, σ => σ.update p (P2PSimpy.addStorage (σ p) nm)

/-- The routing-table invariant of one peer: every service name stored in a
`mh_map` value set is a key of the `handlers` dict. -/
def HandlerInv (ps : PeerState) : Prop :=
  ∀ T ∈ ps.mhDom, ∀ n ∈ ps.mhMap T, n ∈ dictKeys ps.handlers

/-- The routing-table invariant over the whole network. -/
def NetInv (σ : Net) : Prop := ∀ p, HandlerInv (σ p)

/-- A message handed to a `Connection` for delivery: source, destination,
payload, and the `connect=True` initial flag of `Connection.send`. -/
structure NetEvent where
  src : PeerId
  dst : PeerId
  msg : Msg
  connectFlag : Bool
deriving DecidableEq, Repr

/-- `Peer.bootstrap_connect(other)`: constructs an ad-hoc
`Connection(self, other)` and sends `Hello(self)` over it with
`connect=True`.  The `Connection` contract (spec §2, §6; `network.py` is not
under `src/`) only enqueues the message for later delivery, so no peer's
`connections` dict changes; the emitted event records the construction and
the send. -/
def bootstrapConnect (σ : Net) (p other : PeerId) : Net × List NetEvent :=
  (σ, [⟨p, other, Hello p, true⟩])

/-- State of the `Simulation` object: the peer states, the `peers` dict
(peer-type name to list of peers, in insertion order), the
`bootstrap_peers` list, the messages in flight, and the factory's fresh-id
counter.  The `bootstrap_peers` list is modelled from the spec: the topology
layer "maintains … a list of bootstrap peers" (spec §4.6); the tail of
`simulation.py` that initialises it is not under `src/`. -/
structure SimState where
  net : Net
  peerTypes : List (String × List PeerId)
  bootstrapPeers : List PeerId
  pending : List NetEvent
  nextId : Nat

/-- A fresh simulation: no peers, no bootstrap servers. -/
def initSim : SimState := ⟨net₀, [], [], [], 0⟩

/-- Modelled from the spec: the factory contract `createPeer(env, peerType)`
(spec §6; `peer_factory.py` is not under `src/`) — creates a fresh peer of
the given type; bootstrap-type peers carry bootstrap-prefixed names, which
is what `get_graph`'s name filter relies on. -/
def createPeer (sim : SimState) (ptype : String) : PeerId × SimState :=
  let pid := sim.nextId
  (pid,
    { sim with
      nextId := pid + 1
      net := sim.net.update pid { pname := ptype ++ "_" ++ toString pid } })

/-- `Simulation.init_bootstrap_servers(num)`: creates `num` bootstrap peers
and appends each to `bootstrap_peers` (their runners self-start, which does
not change any peer dict). -/
def initBootstrapServers : SimState → Nat → SimState
  | sim, 0 => sim
  | sim, Nat.succ n =>
    let c := createPeer sim "bootstrap"
    initBootstrapServers
      { c.2 with bootstrapPeers := c.2.bootstrapPeers ++ [c.1] } n

/-- The `self.peers[peer_type]` update of `Simulation.add_peers`: create the
list for a new type, then append. -/
def dictAppendPeer (l : List (String × List PeerId)) (k : String) (p : PeerId) :
    List (String × List PeerId) :=
  if l.any (fun e => decide (e.1 = k)) then
    l.map (fun e => if e.1 = k then (k, e.2 ++ [p]) else e)
  else l ++ [(k, [p])]

/-- `Simulation.add_peers(peer_num, peer_type)`: create each peer, pick a
bootstrap server (`random.choice`, abstracted by `choice`), perform
`bootstrap_connect` to it, and record the peer under its type. -/
def addPeers (bw : PeerId → PeerId → ℚ) (choice : List PeerId → PeerId) :
    SimState → Nat → String → SimState
  | sim, 0, _ => sim
  | sim, Nat.succ n, ptype =>
    let c := createPeer sim ptype
    let server := choice c.2.bootstrapPeers
    let bc := bootstrapConnect c.2.net c.1 server
    addPeers bw choice
      { c.2 with
        net := bc.1
        pending := c.2.pending ++ bc.2
        peerTypes := dictAppendPeer c.2.peerTypes ptype c.1 } n ptype

/-- `Simulation.start_all_peers()`: starts every peer's runners; runner start
hooks are service code outside the core and change no peer dict. -/
def startAllPeers (sim : SimState) : SimState := sim

/-- Modelled from the spec: delivery and handling of the pending `Hello`
messages.  The `Hello`-handling service is outside the core (spec §4.1: for
`bootstrap_connect`, "symmetry is expected to be completed by the receiving
side's own service logic upon handling `Hello`"), so handling a delivered
`Hello` makes the receiving peer `connect` to the sender. -/
def deliverPending (bw : PeerId → PeerId → ℚ) (sim : SimState) : SimState :=
  { sim with
    net := sim.pending.foldl (fun σ e => connect bw σ e.dst e.msg.sender) sim.net
    pending := [] }

/-- Boolean `str.startswith` on the character lists (the built-in
`String.startsWith` does not reduce in the kernel). -/
def startsWithB : List Char → List Char → Bool
  | [], _ => true
  | _ :: _, [] => false
  | a :: xs, b :: ys => if a = b then startsWithB xs ys else false

/-- Lexicographic comparison of character lists, used to normalise an
undirected edge to an ordered pair. -/
def charListLe : List Char → List Char → Bool
  | [], _ => true
  | _ :: _, [] => false
  | a :: xs, b :: ys =>
    if a.toNat = b.toNat then charListLe xs ys else decide (a.toNat ≤ b.toNat)

/-- An undirected `networkx` edge `{x, y}` as a normalised ordered pair. -/
def mkEdge (x y : String) : String × String :=
  if charListLe x.data y.data then (x, y) else (y, x)

/-- `Simulation.get_graph(include_bootstrap_peers)`: nodes are peer names of
the recorded peers (plus bootstrap peers when included); for every peer and
every connection of it whose remote name passes the bootstrap-name filter,
an undirected edge is added (adding its endpoints as nodes, as
`networkx.add_edge` does). -/
def getGraph (sim : SimState) (includeBootstrap : Bool) :
    Finset String × Finset (String × String) :=
  let current := (sim.peerTypes.map Prod.snd).flatten ++
    (if includeBootstrap then sim.bootstrapPeers else [])
  current.foldl
    (fun G p =>
      let pn := (sim.net p).pname
      (sim.net p).conns.foldl
        (fun G2 oc =>
          let onm := (sim.net oc.1).pname
          if includeBootstrap || !(startsWithB "bootstrap".data onm.data) then
            (insert onm (insert pn G2.1), insert (mkEdge pn onm) G2.2)
          else G2)
        (insert pn G.1, G.2))
    (∅, ∅)

/-- The spec scenario: one bootstrap server, then `add_peers(3, 'basic')`,
then `start_all_peers`, with the pending `Hello`s delivered and handled. -/
def scenarioWith (choice : List PeerId → PeerId) : SimState :=
  deliverPending bw₀
    (startAllPeers (addPeers bw₀ choice (initBootstrapServers initSim 1) 3 "basic"))

/-- The scenario with the forced bootstrap choice (there is only one
bootstrap server to choose from). -/
def scenario₀ : SimState := scenarioWith (fun l => l.headD 0)

/-- Attribute access `peer.connections` where `peer` is a `str`:
`Simulation.avg_bandwidth` and `median_bandwidth` iterate `self.peers` — a
dict from peer-type name to peer list — so iteration yields the type-name
strings, and a `str` has no `connections` attribute. -/
def strConnections (_ty : String) : Except PyErr (List (PeerId × ℚ)) :=
  .error .attributeError

/-- The collection loop of `avg_bandwidth` / `median_bandwidth`:
`for peer in self.peers: for c in peer.connections.values(): bws.append(c.bandwidth)`
over the iterated dict keys. -/
def collectBws : List String → List ℚ → Except PyErr (List ℚ)
  | [], acc => .ok acc
  | ty :: rest, acc =>
    match strConnections ty with
    | .error e => .error e
    | .ok cs => collectBws rest (acc ++ cs.map Prod.snd)

/-- `Simulation.avg_bandwidth()` as written in the source. -/
def avg_bandwidth (sim : SimState) : Except PyErr ℚ :=
  match collectBws (sim.peerTypes.map Prod.fst) [] with
  | .error e => .error e
  | .ok bws =>
    if bws.length = 0 then .error .zeroDivisionError
    else .ok (bws.sum / (bws.length : ℚ))

/-- `Simulation.median_bandwidth()` as written in the source: sorts the
collected values and indexes at `len(bws) / 2`. -/
def median_bandwidth (sim : SimState) : Except PyErr ℚ :=
  match collectBws (sim.peerTypes.map Prod.fst) [] with
  | .error e => .error e
  | .ok bws =>
    match (bws.mergeSort (fun x y => decide (x ≤ y))).get? (bws.length / 2) with
    | some x => .ok x
    | none => .error .indexError

/-- The bandwidth values of all connections of all recorded peers — what the
spec says the statistics aggregate over. -/
def allPeerConnBandwidths (sim : SimState) : List ℚ :=
  (((sim.peerTypes.map Prod.snd).flatten).map
    (fun p => (sim.net p).conns.map Prod.snd)).flatten

/-- Stated from the spec's words, for comparison: the arithmetic mean of the
bandwidth values of all connections of all recorded peers. -/
def avg_bandwidth_ofSpec (sim : SimState) : Option ℚ :=
  let bws := allPeerConnBandwidths sim
  if bws.length = 0 then none else some (bws.sum / (bws.length : ℚ))

@[simp] theorem Net.update_same (σ : Net) (p : PeerId) (ps : PeerState) :
    Net.update σ p ps p = ps := by simp [Net.update]

@[simp] theorem Net.update_other (σ : Net) (p q : PeerId) (ps : PeerState)
    (h : q ≠ p) : Net.update σ p ps q = σ q := by simp [Net.update, h]

theorem isConnected_iff (σ : Net) (a b : PeerId) :
    isConnected σ a b = true ↔ b ∈ connKeys (σ a) := by
  simp [isConnected]

theorem isConnected_eq_false_iff (σ : Net) (a b : PeerId) :
    isConnected σ a b = false ↔ b ∉ connKeys (σ a) := by
  simp [isConnected]

@[simp] theorem addConn_other (bw : PeerId → PeerId → ℚ) (σ : Net) (a b c : PeerId)
    (h : c ≠ a) : addConn bw σ a b c = σ c := by
  simp [addConn, h]

@[simp] theorem removeConn_other (σ : Net) (a b c : PeerId) (h : c ≠ a) :
    removeConn σ a b c = σ c := by
  simp [removeConn, h]

@[simp] theorem fireCallbacks_other (σ : Net) (a b c : PeerId) (h : c ≠ a) :
    fireCallbacks σ a b c = σ c := by
  simp [fireCallbacks, h]

@[simp] theorem connKeys_addConn (bw : PeerId → PeerId → ℚ) (σ : Net) (a b : PeerId) :
    connKeys (addConn bw σ a b a) = connKeys (σ a) ++ [b] := by
  simp [addConn, connKeys]

@[simp] theorem addConn_cbLog (bw : PeerId → PeerId → ℚ) (σ : Net) (a b : PeerId) :
    (addConn bw σ a b a).cbLog = (σ a).cbLog := by
  simp [addConn]

@[simp] theorem removeConn_cbLog (σ : Net) (a b : PeerId) :
    (removeConn σ a b a).cbLog = (σ a).cbLog := by
  simp [removeConn]

@[simp] theorem removeConn_cbCount (σ : Net) (a b : PeerId) :
    (removeConn σ a b a).cbCount = (σ a).cbCount := by
  simp [removeConn]

@[simp] theorem fireCallbacks_conns (σ : Net) (a b : PeerId) :
    (fireCallbacks σ a b a).conns = (σ a).conns := by
  simp [fireCallbacks]

@[simp] theorem connKeys_fireCallbacks (σ : Net) (a b : PeerId) :
    connKeys (fireCallbacks σ a b a) = connKeys (σ a) := by
  simp [fireCallbacks, connKeys]

@[simp] theorem fireCallbacks_cbLog (σ : Net) (a b : PeerId) :
    (fireCallbacks σ a b a).cbLog =
      (σ a).cbLog ++ List.replicate ((σ a).cbCount) (a, b) := by
  simp [fireCallbacks]

theorem not_mem_connKeys_removeConn (σ : Net) (a b : PeerId) :
    b ∉ connKeys (removeConn σ a b a) := by
  simp only [removeConn, Net.update_same, connKeys]
  intro h
  rcases List.mem_map.mp h with ⟨e, he, hfst⟩
  have h2 := List.of_mem_filter he
  simp only [decide_eq_true_iff] at h2
  exact h2 hfst

theorem connectFuel_of_connected (bw : PeerId → PeerId → ℚ) (n : Nat) (σ : Net)
    (a b : PeerId) (hab : isConnected σ a b = true) :
    connectFuel bw (n + 1) σ a b = some σ := by
  simp [connectFuel, hab]

theorem connectFuel_of_half (bw : PeerId → PeerId → ℚ) (n : Nat) (σ : Net)
    (a b : PeerId) (hba : isConnected (addConn bw σ a b) b a = true)
    (hab : isConnected σ a b = false) :
    connectFuel bw (n + 1) σ a b = some (addConn bw σ a b) := by
  simp [connectFuel, hab, hba]

theorem connectFuel_of_neither (bw : PeerId → PeerId → ℚ) (n : Nat) (σ : Net)
    (a b : PeerId) (hne : a ≠ b) (hab : isConnected σ a b = false)
    (hba : isConnected (addConn bw σ a b) b a = false) :
    connectFuel bw (n + 2) σ a b =
      some (addConn bw (addConn bw σ a b) b a) := by
  have hab2 : isConnected (addConn bw (addConn bw σ a b) b a) a b = true := by
    rw [isConnected_iff, addConn_other bw (addConn bw σ a b) b a a hne,
      connKeys_addConn]
    simp
  have hba2 : isConnected (addConn bw σ a b) b a = false := hba
  calc connectFuel bw (n + 2) σ a b
      = connectFuel bw (n + 1) (addConn bw σ a b) b a := by
        simp [connectFuel, hab, hba]
    _ = some (addConn bw (addConn bw σ a b) b a) := by
        simp [connectFuel, hba2, hab2]

/-- The reciprocal recursion in `Peer.connect` terminates: fuel `2` always
reaches a result. -/
theorem connect_terminates (bw : PeerId → PeerId → ℚ) (σ : Net) (a b : PeerId) :
    ∃ σ', connectFuel bw 2 σ a b = some σ' := by
  by_cases hab : isConnected σ a b = true
  · exact ⟨σ, connectFuel_of_connected bw 1 σ a b hab⟩
  · have hab' : isConnected σ a b = false := by simpa using hab
    by_cases hba : isConnected (addConn bw σ a b) b a = true
    · exact ⟨_, connectFuel_of_half bw 1 σ a b hba hab'⟩
    · have hba' : isConnected (addConn bw σ a b) b a = false := by simpa using hba
      by_cases hne : a = b
      · exfalso
        subst hne
        rw [isConnected_eq_false_iff, connKeys_addConn] at hba'
        simp at hba'
      · exact ⟨_, connectFuel_of_neither bw 0 σ a b hne hab' hba'⟩

theorem connect_of_connected (bw : PeerId → PeerId → ℚ) (σ : Net) (a b : PeerId)
    (hab : isConnected σ a b = true) : connect bw σ a b = σ := by
  simp [connect, connectFuel_of_connected bw 1 σ a b hab]

theorem connect_of_half (bw : PeerId → PeerId → ℚ) (σ : Net) (a b : PeerId)
    (hba : isConnected (addConn bw σ a b) b a = true)
    (hab : isConnected σ a b = false) :
    connect bw σ a b = addConn bw σ a b := by
  simp [connect, connectFuel_of_half bw 1 σ a b hba hab]

theorem connect_of_neither (bw : PeerId → PeerId → ℚ) (σ : Net) (a b : PeerId)
    (hne : a ≠ b) (hab : isConnected σ a b = false)
    (hba : isConnected (addConn bw σ a b) b a = false) :
    connect bw σ a b = addConn bw (addConn bw σ a b) b a := by
  simp [connect, connectFuel_of_neither bw 0 σ a b hne hab hba]

theorem disconnectFuel_of_not_connected (n : Nat) (σ : Net) (a b : PeerId)
    (hab : isConnected σ a b = false) :
    disconnectFuel (n + 1) σ a b = some σ := by
  simp [disconnectFuel, hab]

theorem disconnectFuel_no_recip (n : Nat) (σ : Net) (a b : PeerId)
    (hab : isConnected σ a b = true)
    (hba : isConnected (removeConn σ a b) b a = false) :
    disconnectFuel (n + 1) σ a b =
      some (fireCallbacks (removeConn σ a b) a b) := by
  simp [disconnectFuel, hab, hba]

theorem disconnectFuel_recip (n : Nat) (σ τ : Net) (a b : PeerId)
    (hab : isConnected σ a b = true)
    (hba : isConnected (removeConn σ a b) b a = true)
    (hinner : disconnectFuel n (removeConn σ a b) b a = some τ) :
    disconnectFuel (n + 1) σ a b = some (fireCallbacks τ a b) := by
  simp [disconnectFuel, hab, hba, hinner]

/-- C1: for distinct peers `a`, `b` (in a state satisfying the connection
symmetry invariant, here used only in the direction the proof needs),
`a.connect(b)` terminates — the reciprocal `b.connect(a)` is invoked only
when `b` does not already list `a`, so fuel `2` always reaches a result —
and afterwards both `a.is_connected(b)` and `b.is_connected(a)` return
true. -/
theorem claim1_connect_symmetric (bw : PeerId → PeerId → ℚ) (σ : Net) (a b : PeerId)
    (hne : a ≠ b) (hSymm : isConnected σ a b = true → isConnected σ b a = true) :
    ∃ σ', connectFuel bw 2 σ a b = some σ' ∧
      isConnected σ' a b = true ∧ isConnected σ' b a = true := by
  by_cases hab : isConnected σ a b = true
  · exact ⟨σ, connectFuel_of_connected bw 1 σ a b hab, hab, hSymm hab⟩
  · have hab' : isConnected σ a b = false := by simpa using hab
    by_cases hba : isConnected (addConn bw σ a b) b a = true
    · refine ⟨_, connectFuel_of_half bw 1 σ a b hba hab', ?_, hba⟩
      rw [isConnected_iff, connKeys_addConn]
      simp
    · have hba' : isConnected (addConn bw σ a b) b a = false := by simpa using hba
      refine ⟨_, connectFuel_of_neither bw 0 σ a b hne hab' hba', ?_, ?_⟩
      · rw [isConnected_iff, addConn_other bw (addConn bw σ a b) b a a hne,
          connKeys_addConn]
        simp
      · rw [isConnected_iff, connKeys_addConn]
        simp

/-- Witness for C1 at the empty network, peers 0 and 1. -/
theorem claim1_connect_symmetric_witness :
    ∃ σ', connectFuel bw₀ 2 net₀ 0 1 = some σ' ∧
      isConnected σ' 0 1 = true ∧ isConnected σ' 1 0 = true :=
  claim1_connect_symmetric bw₀ net₀ 0 1 (by decide) (fun h => absurd h (by decide))

/-- C2: after `a.disconnect(b)` on a pair with `b` in `a`'s connections, both
sides report disconnected, and every disconnect callback registered on `a`
fires exactly once with `(a, b)` — `a`'s callback log is extended by exactly
one `(a, b)` entry per registered callback. -/
theorem claim2_disconnect_symmetry_callbacks (σ : Net) (a b : PeerId)
    (hconn : isConnected σ a b = true) :
    ∃ σ', disconnectFuel 2 σ a b = some σ' ∧
      isConnected σ' a b = false ∧ isConnected σ' b a = false ∧
      (σ' a).cbLog = (σ a).cbLog ++ List.replicate ((σ a).cbCount) (a, b) := by
  by_cases heq : a = b
  · subst heq
    have hba : isConnected (removeConn σ a a) a a = false := by
      rw [isConnected_eq_false_iff]
      exact not_mem_connKeys_removeConn σ a a
    refine ⟨_, disconnectFuel_no_recip 1 σ a a hconn hba, ?_, ?_, ?_⟩
    · rw [isConnected_eq_false_iff, connKeys_fireCallbacks]
      exact not_mem_connKeys_removeConn σ a a
    · rw [isConnected_eq_false_iff, connKeys_fireCallbacks]
      exact not_mem_connKeys_removeConn σ a a
    · rw [fireCallbacks_cbLog, removeConn_cbLog, removeConn_cbCount]
  · by_cases hba : isConnected (removeConn σ a b) b a = true
    · have hba2 : isConnected (removeConn (removeConn σ a b) b a) a b = false := by
        rw [isConnected_eq_false_iff, removeConn_other _ _ _ _ heq]
        exact not_mem_connKeys_removeConn σ a b
      have hinner := disconnectFuel_no_recip 0 (removeConn σ a b) b a hba hba2
      refine ⟨_, disconnectFuel_recip 1 σ _ a b hconn hba hinner, ?_, ?_, ?_⟩
      · rw [isConnected_eq_false_iff, connKeys_fireCallbacks,
          fireCallbacks_other _ _ _ _ heq, removeConn_other _ _ _ _ heq]
        exact not_mem_connKeys_removeConn σ a b
      · rw [isConnected_eq_false_iff, fireCallbacks_other _ _ _ _ (Ne.symm heq),
          connKeys_fireCallbacks]
        exact not_mem_connKeys_removeConn (removeConn σ a b) b a
      · rw [fireCallbacks_cbLog, fireCallbacks_other _ _ _ _ heq,
          removeConn_other _ _ _ _ heq, removeConn_cbLog, removeConn_cbCount]
    · have hba' : isConnected (removeConn σ a b) b a = false := by simpa using hba
      refine ⟨_, disconnectFuel_no_recip 1 σ a b hconn hba', ?_, ?_, ?_⟩
      · rw [isConnected_eq_false_iff, connKeys_fireCallbacks]
        exact not_mem_connKeys_removeConn σ a b
      · rw [isConnected_eq_false_iff, fireCallbacks_other _ _ _ _ (Ne.symm heq)]
        rw [isConnected_eq_false_iff] at hba'
        exact hba'
      · rw [fireCallbacks_cbLog, removeConn_cbLog, removeConn_cbCount]

/-- Witness for C2: peers 0 and 1 of `netC` are connected; after
`0.disconnect(1)` both sides are disconnected and 0's two callbacks each
fired once with `(0, 1)`. -/
theorem claim2_disconnect_symmetry_callbacks_witness :
    ∃ σ', disconnectFuel 2 netC 0 1 = some σ' ∧
      isConnected σ' 0 1 = false ∧ isConnected σ' 1 0 = false ∧
      (σ' 0).cbLog = (netC 0).cbLog ++ List.replicate ((netC 0).cbCount) (0, 1) :=
  claim2_disconnect_symmetry_callbacks netC 0 1 (by decide)

/-- C3: starting from a dict-consistent state (unique keys on both sides,
symmetry in the direction the pair uses), calling `a.connect(b)` twice leaves
exactly one entry for `b` in `a`'s connections and exactly one entry for `a`
in `b`'s connections — the second call being a no-op — and `a.disconnect(b)`
on an unconnected pair returns the state unchanged (so no callback fires and
no connections mapping changes). -/
theorem claim3_connect_idempotent_disconnect_noop (bw : PeerId → PeerId → ℚ)
    (σ : Net) (a b : PeerId) (hne : a ≠ b)
    (hna : (connKeys (σ a)).Nodup) (hnb : (connKeys (σ b)).Nodup)
    (hSymm : isConnected σ a b = true → isConnected σ b a = true) :
    (connect bw (connect bw σ a b) a b = connect bw σ a b ∧
     (connKeys ((connect bw (connect bw σ a b) a b) a)).count b = 1 ∧
     (connKeys ((connect bw (connect bw σ a b) a b) b)).count a = 1) ∧
    (isConnected σ a b = false → disconnect σ a b = σ) := by
  constructor
  · by_cases hab : isConnected σ a b = true
    · have h1 : connect bw σ a b = σ := connect_of_connected bw σ a b hab
      rw [h1, h1]
      refine ⟨rfl, ?_, ?_⟩
      · exact List.count_eq_one_of_mem hna ((isConnected_iff σ a b).mp hab)
      · exact List.count_eq_one_of_mem hnb ((isConnected_iff σ b a).mp (hSymm hab))
    · have hab' : isConnected σ a b = false := by simpa using hab
      have hbmem : b ∉ connKeys (σ a) := (isConnected_eq_false_iff σ a b).mp hab'
      by_cases hba : isConnected (addConn bw σ a b) b a = true
      · have h1 : connect bw σ a b = addConn bw σ a b :=
          connect_of_half bw σ a b hba hab'
        have h2 : isConnected (addConn bw σ a b) a b = true := by
          rw [isConnected_iff, connKeys_addConn]
          simp
        have h3 : connect bw (addConn bw σ a b) a b = addConn bw σ a b :=
          connect_of_connected bw _ a b h2
        rw [h1, h3]
        refine ⟨rfl, ?_, ?_⟩
        · rw [connKeys_addConn, List.count_append, List.count_eq_zero.mpr hbmem]
          simp
        · rw [addConn_other bw σ a b b (Ne.symm hne)]
          have hmem : a ∈ connKeys (σ b) := by
            have h := (isConnected_iff _ b a).mp hba
            rwa [addConn_other bw σ a b b (Ne.symm hne)] at h
          exact List.count_eq_one_of_mem hnb hmem
      · have hba' : isConnected (addConn bw σ a b) b a = false := by simpa using hba
        have h1 : connect bw σ a b = addConn bw (addConn bw σ a b) b a :=
          connect_of_neither bw σ a b hne hab' hba'
        have h2 : isConnected (addConn bw (addConn bw σ a b) b a) a b = true := by
          rw [isConnected_iff, addConn_other bw (addConn bw σ a b) b a a hne,
            connKeys_addConn]
          simp
        have h3 : connect bw (addConn bw (addConn bw σ a b) b a) a b =
            addConn bw (addConn bw σ a b) b a :=
          connect_of_connected bw _ a b h2
        rw [h1, h3]
        refine ⟨rfl, ?_, ?_⟩
        · rw [addConn_other bw (addConn bw σ a b) b a a hne, connKeys_addConn,
            List.count_append, List.count_eq_zero.mpr hbmem]
          simp
        · rw [connKeys_addConn, addConn_other bw σ a b b (Ne.symm hne),
            List.count_append]
          have hamem : a ∉ connKeys (σ b) := by
            have h := (isConnected_eq_false_iff _ b a).mp hba'
            rwa [addConn_other bw σ a b b (Ne.symm hne)] at h
          rw [List.count_eq_zero.mpr hamem]
          simp
  · intro h
    simp [disconnect, disconnectFuel_of_not_connected 1 σ a b h]

/-- Witness for C3 at the empty network, peers 0 and 1. -/
theorem claim3_connect_idempotent_disconnect_noop_witness :
    (connect bw₀ (connect bw₀ net₀ 0 1) 0 1 = connect bw₀ net₀ 0 1 ∧
     (connKeys ((connect bw₀ (connect bw₀ net₀ 0 1) 0 1) 0)).count 1 = 1 ∧
     (connKeys ((connect bw₀ (connect bw₀ net₀ 0 1) 0 1) 1)).count 0 = 1) ∧
    (isConnected net₀ 0 1 = false → disconnect net₀ 0 1 = net₀) :=
  claim3_connect_idempotent_disconnect_noop bw₀ net₀ 0 1 (by decide)
    (by constructor) (by constructor) (fun h => absurd h (by decide))

theorem send_ok (σ : Net) (p r : PeerId) (m : Msg) (hm : m.sender = p)
    (hc : isConnected σ p r = true) : send σ p r m = .ok (r, m) := by
  simp [send, hm, hc]

theorem sendAll_ok (σ : Net) (p : PeerId) (m : Msg) (l : List PeerId)
    (hm : m.sender = p) (h : ∀ r ∈ l, isConnected σ p r = true) :
    sendAll σ p m l = .ok (l.map (fun r => (r, m))) := by
  induction l with
  | nil => rfl
  | cons r rest ih =>
    have h1 : send σ p r m = .ok (r, m) := send_ok σ p r m hm (h r (by simp))
    have h2 := ih (fun x hx => h x (by simp [hx]))
    simp [sendAll, h1, h2]

/-- C4: with a valid `random.sample` and a message authored by `p`,
`p.gossip(m, f, E)` sends `m` to exactly `min(f, |connections - E|)` distinct
peers, all drawn from the candidate set `connections - E` and none in `E`,
and an omitted exclusion set is the empty set. -/
theorem claim4_gossip_fanout_bound (sample : List PeerId → Nat → List PeerId)
    (σ : Net) (p : PeerId) (m : Msg) (f : Nat) (E : Finset PeerId)
    (hs : ValidSample sample) (hm : m.sender = p) :
    ∃ recvs : List PeerId,
      gossip sample σ p m f (some E) = .ok (recvs.map (fun r => (r, m))) ∧
      recvs.Nodup ∧
      recvs.length = min f (gossipSet σ p E).card ∧
      (∀ r ∈ recvs, r ∈ gossipSet σ p E) ∧
      (∀ r ∈ recvs, r ∉ E) ∧
      gossip sample σ p m f none = gossip sample σ p m f (some ∅) := by
  have hk : min f (gossipSet σ p E).card ≤ ((gossipSet σ p E).sort (· ≤ ·)).length := by
    rw [Finset.length_sort]
    exact Nat.min_le_right _ _
  obtain ⟨hlen, hle⟩ := hs ((gossipSet σ p E).sort (· ≤ ·)) (min f (gossipSet σ p E).card) hk
  have hmemgs : ∀ r ∈ sample ((gossipSet σ p E).sort (· ≤ ·)) (min f (gossipSet σ p E).card),
      r ∈ gossipSet σ p E := by
    intro r hrr
    have hml : r ∈ (gossipSet σ p E).sort (· ≤ ·) := by
      have := Multiset.mem_of_le hle (Multiset.mem_coe.mpr hrr)
      exact Multiset.mem_coe.mp this
    exact (Finset.mem_sort _).mp hml
  refine ⟨sample ((gossipSet σ p E).sort (· ≤ ·)) (min f (gossipSet σ p E).card),
    ?_, ?_, hlen, hmemgs, ?_, rfl⟩
  · show sendAll σ p m _ = _
    refine sendAll_ok σ p m _ hm ?_
    intro r hrr
    have hr : r ∈ gossipSet σ p E := hmemgs r hrr
    rw [gossipSet, Finset.mem_sdiff] at hr
    rw [isConnected_iff]
    exact List.mem_toFinset.mp hr.1
  · have hnodl : ((gossipSet σ p E).sort (· ≤ ·)).Nodup := Finset.sort_nodup _ _
    have hnd : (((sample ((gossipSet σ p E).sort (· ≤ ·))
        (min f (gossipSet σ p E).card) : List PeerId)) : Multiset PeerId).Nodup :=
      Multiset.nodup_of_le hle (Multiset.coe_nodup.mpr hnodl)
    exact Multiset.coe_nodup.mp hnd
  · intro r hrr
    have hr : r ∈ gossipSet σ p E := hmemgs r hrr
    rw [gossipSet, Finset.mem_sdiff] at hr
    exact hr.2

theorem validSample_sample₀ : ValidSample sample₀ := by
  intro l k hk
  constructor
  · simpa [sample₀] using Nat.min_eq_left hk
  · exact Multiset.coe_le.mpr (List.take_sublist k l).subperm

/-- Witness for C4 at `netC`, fanout 3, empty exclusion set. -/
theorem claim4_gossip_fanout_bound_witness :
    ∃ recvs : List PeerId,
      gossip sample₀ netC 0 msgW 3 (some ∅) = .ok (recvs.map (fun r => (r, msgW))) ∧
      recvs.Nodup ∧
      recvs.length = min 3 (gossipSet netC 0 ∅).card ∧
      (∀ r ∈ recvs, r ∈ gossipSet netC 0 ∅) ∧
      (∀ r ∈ recvs, r ∉ (∅ : Finset PeerId)) ∧
      gossip sample₀ netC 0 msgW 3 none = gossip sample₀ netC 0 msgW 3 (some ∅) :=
  claim4_gossip_fanout_bound sample₀ netC 0 msgW 3 ∅ validSample_sample₀ rfl

theorem addService_handlers (ps : PeerState) (s : Service) :
    (addService ps s).handlers =
      if s.isHandler then dictInsert ps.handlers s.sname s else ps.handlers := by
  unfold addService
  by_cases h1 : s.isHandler = true <;> by_cases h2 : s.isRunner = true <;>
    simp [h1, h2]

theorem addService_mhDom (ps : PeerState) (s : Service) :
    (addService ps s).mhDom =
      if s.isHandler then (addRoutes s.sname s.messages ps.mhDom ps.mhMap).1
      else ps.mhDom := by
  unfold addService
  by_cases h1 : s.isHandler = true <;> by_cases h2 : s.isRunner = true <;>
    simp [h1, h2]

theorem addService_mhMap (ps : PeerState) (s : Service) :
    (addService ps s).mhMap =
      if s.isHandler then (addRoutes s.sname s.messages ps.mhDom ps.mhMap).2
      else ps.mhMap := by
  unfold addService
  by_cases h1 : s.isHandler = true <;> by_cases h2 : s.isRunner = true <;>
    simp [h1, h2]

theorem self_mem_dictKeys_dictInsert (l : List (String × Service)) (k : String)
    (v : Service) : k ∈ dictKeys (dictInsert l k v) := by
  unfold dictInsert dictKeys
  by_cases h : l.any (fun e => decide (e.1 = k)) = true
  · rw [if_pos h]
    rcases List.any_eq_true.mp h with ⟨e, he, hek⟩
    rw [decide_eq_true_iff] at hek
    refine List.mem_map.mpr ⟨(k, v), ?_, rfl⟩
    refine List.mem_map.mpr ⟨e, he, ?_⟩
    rw [if_pos hek]
  · rw [if_neg h]
    simp

theorem mem_dictKeys_dictInsert_of_mem (l : List (String × Service)) (k : String)
    (v : Service) (n : String) (h : n ∈ dictKeys l) :
    n ∈ dictKeys (dictInsert l k v) := by
  unfold dictInsert dictKeys
  rcases List.mem_map.mp h with ⟨e, he, hen⟩
  by_cases hany : l.any (fun e => decide (e.1 = k)) = true
  · rw [if_pos hany]
    by_cases hek : e.1 = k
    · refine List.mem_map.mpr ⟨(k, v), List.mem_map.mpr ⟨e, he, by rw [if_pos hek]⟩, ?_⟩
      rw [← hen, hek]
    · exact List.mem_map.mpr ⟨e, List.mem_map.mpr ⟨e, he, by rw [if_neg hek]⟩, hen⟩
  · rw [if_neg hany]
    exact List.mem_map.mpr ⟨e, List.mem_append_left _ he, hen⟩

theorem mem_dictKeys_addService (ps : PeerState) (s : Service) (n : String)
    (h : n ∈ dictKeys ps.handlers) : n ∈ dictKeys (addService ps s).handlers := by
  rw [addService_handlers]
  by_cases hh : s.isHandler = true
  · rw [if_pos hh]
    exact mem_dictKeys_dictInsert_of_mem _ _ _ _ h
  · rw [if_neg hh]
    exact h

theorem sname_mem_dictKeys_addService (ps : PeerState) (s : Service)
    (hh : s.isHandler = true) : s.sname ∈ dictKeys (addService ps s).handlers := by
  rw [addService_handlers, if_pos hh]
  exact self_mem_dictKeys_dictInsert _ _ _

theorem addRoutes_map_eq (sname : String) (ms : List Nat) (dom : List Nat)
    (mp : Nat → Finset String) (T : Nat) :
    (addRoutes sname ms dom mp).2 T =
      if T ∈ ms then insert sname (if T ∈ dom then mp T else ∅) else mp T := by
  induction ms generalizing dom mp with
  | nil => simp [addRoutes]
  | cons m rest ih =>
    rw [addRoutes, ih]
    by_cases hTm : T = m
    · subst hTm
      have hdom' : T ∈ (if T ∈ dom then dom else dom ++ [T]) := by
        by_cases hd : T ∈ dom
        · simp [hd]
        · simp [hd]
      by_cases hrest : T ∈ rest
      · simp [hrest, hdom', Finset.insert_idem]
      · simp [hrest, hdom']
    · have hdom' : (T ∈ (if m ∈ dom then dom else dom ++ [m])) ↔ T ∈ dom := by
        by_cases hd : m ∈ dom
        · simp [hd]
        · simp [hd, hTm]
      simp [hTm, hdom']

theorem addRoutes_dom_mem (sname : String) (ms : List Nat) (dom : List Nat)
    (mp : Nat → Finset String) (T : Nat) :
    T ∈ (addRoutes sname ms dom mp).1 ↔ T ∈ dom ∨ T ∈ ms := by
  induction ms generalizing dom mp with
  | nil => simp [addRoutes]
  | cons m rest ih =>
    rw [addRoutes, ih]
    by_cases hd : m ∈ dom
    · rw [if_pos hd]
      constructor
      · rintro (h | h)
        · exact Or.inl h
        · exact Or.inr (List.mem_cons_of_mem _ h)
      · rintro (h | h)
        · exact Or.inl h
        · rcases List.mem_cons.mp h with h1 | h1
          · exact Or.inl (by rw [h1]; exact hd)
          · exact Or.inr h1
    · rw [if_neg hd]
      simp [List.mem_append, or_assoc]

theorem addService_not_interested (ps : PeerState) (s : Service) (T : Nat)
    (h : ¬(s.isHandler = true ∧ T ∈ s.messages)) :
    (addService ps s).mhMap T = ps.mhMap T ∧
    ((T ∈ (addService ps s).mhDom) ↔ T ∈ ps.mhDom) := by
  by_cases hh : s.isHandler = true
  · have hT : T ∉ s.messages := fun hT => h ⟨hh, hT⟩
    constructor
    · rw [addService_mhMap, if_pos hh, addRoutes_map_eq, if_neg hT]
    · rw [addService_mhDom, if_pos hh, addRoutes_dom_mem]
      simp [hT]
  · rw [addService_mhMap, addService_mhDom, if_neg hh, if_neg hh]
    exact ⟨rfl, Iff.rfl⟩

theorem addService_interested (ps : PeerState) (s : Service) (T : Nat)
    (hh : s.isHandler = true) (hT : T ∈ s.messages) :
    (addService ps s).mhMap T =
      insert s.sname (if T ∈ ps.mhDom then ps.mhMap T else ∅) ∧
    T ∈ (addService ps s).mhDom := by
  constructor
  · rw [addService_mhMap, if_pos hh, addRoutes_map_eq, if_pos hT]
  · rw [addService_mhDom, if_pos hh, addRoutes_dom_mem]
    exact Or.inr hT

theorem addServices_cons (ps : PeerState) (s : Service) (rest : List Service) :
    addServices ps (s :: rest) = addServices (addService ps s) rest := rfl

theorem addServices_not_interested (svcs : List Service) (ps : PeerState) (T : Nat)
    (hno : ∀ s ∈ svcs, ¬(s.isHandler = true ∧ T ∈ s.messages)) :
    (addServices ps svcs).mhMap T = ps.mhMap T ∧
    ((T ∈ (addServices ps svcs).mhDom) ↔ T ∈ ps.mhDom) ∧
    (∀ n, n ∈ dictKeys ps.handlers → n ∈ dictKeys (addServices ps svcs).handlers) := by
  induction svcs generalizing ps with
  | nil => exact ⟨rfl, Iff.rfl, fun _ h => h⟩
  | cons s rest ih =>
    have h1 := addService_not_interested ps s T (hno s (by simp))
    obtain ⟨ih1, ih2, ih3⟩ := ih (addService ps s) (fun x hx => hno x (by simp [hx]))
    refine ⟨?_, ?_, ?_⟩
    · rw [addServices_cons, ih1, h1.1]
    · rw [addServices_cons, ih2, h1.2]
    · intro n hn
      rw [addServices_cons]
      exact ih3 n (mem_dictKeys_addService ps s n hn)

theorem addServices_route (svcs : List Service) (ps : PeerState) (h : Service)
    (T : Nat) (hnd : (svcs.map Service.sname).Nodup) (hmem : h ∈ svcs)
    (hh : h.isHandler = true) (hT : T ∈ h.messages)
    (huniq : ∀ s ∈ svcs, s.isHandler = true → T ∈ s.messages → s = h)
    (hdom : T ∉ ps.mhDom) :
    (addServices ps svcs).mhMap T = {h.sname} ∧
    T ∈ (addServices ps svcs).mhDom ∧
    h.sname ∈ dictKeys (addServices ps svcs).handlers := by
  induction svcs generalizing ps with
  | nil => cases hmem
  | cons s rest ih =>
    rw [addServices_cons]
    by_cases hsh : s = h
    · subst hsh
      have hnd2 := hnd
      rw [List.map_cons, List.nodup_cons] at hnd2
      have hsname : s.sname ∉ rest.map Service.sname := hnd2.1
      have hrest_no : ∀ x ∈ rest, ¬(x.isHandler = true ∧ T ∈ x.messages) := by
        intro x hx hcon
        have hxh : x = s := huniq x (List.mem_cons_of_mem _ hx) hcon.1 hcon.2
        subst hxh
        exact hsname (List.mem_map_of_mem _ hx)
      obtain ⟨p1, p2, p3⟩ := addServices_not_interested rest (addService ps s) T hrest_no
      have hstep := addService_interested ps s T hh hT
      refine ⟨?_, p2.mpr hstep.2, p3 _ (sname_mem_dictKeys_addService ps s hh)⟩
      rw [p1, hstep.1, if_neg hdom]
      rfl
    · have hmem' : h ∈ rest := by
        rcases List.mem_cons.mp hmem with h1 | h1
        · exact absurd h1.symm hsh
        · exact h1
      have hno_s : ¬(s.isHandler = true ∧ T ∈ s.messages) :=
        fun hcon => hsh (huniq s (List.mem_cons_self _ _) hcon.1 hcon.2)
      have hstep := addService_not_interested ps s T hno_s
      have hdom' : T ∉ (addService ps s).mhDom := fun hc => hdom (hstep.2.mp hc)
      have hnd2 := hnd
      rw [List.map_cons, List.nodup_cons] at hnd2
      exact ih (addService ps s) hnd2.2 hmem'
        (fun x hx h1 h2 => huniq x (List.mem_cons_of_mem _ hx) h1 h2) hdom'

/-- C5: on a freshly constructed peer whose services are registered through
`add_service`, if exactly one registered service is a Handler declaring
interest in message type `T` (services carry distinct class names, as Python
type names key the dicts), then receiving a `BaseMessage` of type `T`
invokes exactly that service's `handle_message`, exactly once, with the
message as argument. -/
theorem claim5_dispatch_unique_handler (nm : String) (svcs : List Service)
    (h : Service) (T : Nat) (m : Msg)
    (hnd : (svcs.map Service.sname).Nodup) (hmem : h ∈ svcs)
    (hh : h.isHandler = true) (hT : T ∈ h.messages)
    (huniq : ∀ s ∈ svcs, s.isHandler = true → T ∈ s.messages → s = h)
    (hbase : m.isBase = true) (hmtype : m.mtype = T) :
    receiveP (addServices (initPeer nm) svcs) m = .ok {(h.sname, m)} := by
  obtain ⟨r1, r2, r3⟩ :=
    addServices_route svcs (initPeer nm) h T hnd hmem hh hT huniq (by simp [initPeer])
  rw [receiveP, if_pos hbase, hmtype, if_pos r2, r1, if_pos]
  · rfl
  · intro n hn
    rw [Finset.mem_singleton] at hn
    rw [hn]
    exact r3

/-- Witness for C5: a peer with one handler for type 1 and one runner
dispatches a type-1 message to exactly that handler. -/
theorem claim5_dispatch_unique_handler_witness :
    receiveP (addServices (initPeer "peer") [svcH, svcR]) msgW =
      .ok {(svcH.sname, msgW)} :=
  claim5_dispatch_unique_handler "peer" [svcH, svcR] svcH 1 msgW (by decide)
    (by decide) (by decide) (by decide) (by decide) rfl rfl

/-- C6: each fatal condition raises: `receive` on a non-`BaseMessage`
(assertion) or on a type absent from `mh_map`; `send` with a foreign sender
(assertion) or to a peer not in `connections`; `store` into an unregistered
storage name — and `store` into a registered name delegates to that
storage's `add`. -/
theorem claim6_fatal_errors (ps : PeerState) (σ : Net) (p r : PeerId) (m : Msg)
    (nm : String) (i v : Nat) :
    (m.isBase = false → receiveP ps m = .error .assertionError) ∧
    (m.isBase = true → m.mtype ∉ ps.mhDom → receiveP ps m = .error .noHandler) ∧
    (m.sender ≠ p → send σ p r m = .error .assertionError) ∧
    (m.sender = p → isConnected σ p r = false →
      send σ p r m = .error .notConnected) ∧
    (nm ∉ ps.storageNames → store ps nm i v = .error .noStorage) ∧
    (nm ∈ ps.storageNames → store ps nm i v =
      .ok { ps with storeLog := ps.storeLog ++ [(nm, i, v)] }) := by
  refine ⟨?_, ?_, ?_, ?_, ?_, ?_⟩
  · intro h
    simp [receiveP, h]
  · intro h1 h2
    simp [receiveP, h1, h2]
  · intro h
    simp [send, h]
  · intro h1 h2
    simp [send, h1, h2]
  · intro h
    simp [store, h]
  · intro h
    simp [store, h]

/-- Witness for C6: each error conjunct evaluated at a concrete input. -/
theorem claim6_fatal_errors_witness :
    receiveP psW ⟨false, 0, 0⟩ = .error .assertionError ∧
    receiveP psW ⟨true, 99, 0⟩ = .error .noHandler ∧
    send netC 0 1 ⟨true, 1, 5⟩ = .error .assertionError ∧
    send netC 0 7 ⟨true, 1, 0⟩ = .error .notConnected ∧
    store psW "nope" 1 2 = .error .noStorage ∧
    store psW "chain" 1 2 =
      .ok { psW with storeLog := psW.storeLog ++ [("chain", 1, 2)] } :=
  ⟨(claim6_fatal_errors psW netC 0 1 ⟨false, 0, 0⟩ "x" 0 0).1 rfl,
   (claim6_fatal_errors psW netC 0 1 ⟨true, 99, 0⟩ "x" 0 0).2.1 rfl (by decide),
   (claim6_fatal_errors psW netC 0 1 ⟨true, 1, 5⟩ "x" 0 0).2.2.1 (by decide),
   (claim6_fatal_errors psW netC 0 7 ⟨true, 1, 0⟩ "x" 0 0).2.2.2.1 rfl (by decide),
   (claim6_fatal_errors psW netC 0 1 ⟨true, 1, 0⟩ "nope" 1 2).2.2.2.2.1 (by decide),
   (claim6_fatal_errors psW netC 0 1 ⟨true, 1, 0⟩ "chain" 1 2).2.2.2.2.2 (by decide)⟩

theorem handlerInv_fields (ps ps' : PeerState) (h1 : ps'.handlers = ps.handlers)
    (h2 : ps'.mhDom = ps.mhDom) (h3 : ps'.mhMap = ps.mhMap)
    (h : HandlerInv ps) : HandlerInv ps' := by
  intro T hT n hn
  rw [h2] at hT
  rw [h3] at hn
  rw [h1]
  exact h T hT n hn

theorem netInv_update (σ : Net) (p : PeerId) (ps' : PeerState) (h : NetInv σ)
    (hps : HandlerInv ps') : NetInv (σ.update p ps') := by
  intro q
  by_cases hq : q = p
  · subst hq
    rw [Net.update_same]
    exact hps
  · rw [Net.update_other _ _ _ _ hq]
    exact h q

theorem netInv_addConn (bw : PeerId → PeerId → ℚ) (σ : Net) (a b : PeerId)
    (h : NetInv σ) : NetInv (addConn bw σ a b) := by
  unfold addConn
  exact netInv_update σ a _ h (handlerInv_fields (σ a) _ rfl rfl rfl (h a))

theorem netInv_removeConn (σ : Net) (a b : PeerId) (h : NetInv σ) :
    NetInv (removeConn σ a b) := by
  unfold removeConn
  exact netInv_update σ a _ h (handlerInv_fields (σ a) _ rfl rfl rfl (h a))

theorem netInv_fireCallbacks (σ : Net) (a b : PeerId) (h : NetInv σ) :
    NetInv (fireCallbacks σ a b) := by
  unfold fireCallbacks
  exact netInv_update σ a _ h (handlerInv_fields (σ a) _ rfl rfl rfl (h a))

theorem handlerInv_addService (ps : PeerState) (s : Service) (h : HandlerInv ps) :
    HandlerInv (addService ps s) := by
  intro T hT n hn
  by_cases hh : s.isHandler = true
  · rw [addService_mhMap, if_pos hh, addRoutes_map_eq] at hn
    rw [addService_mhDom, if_pos hh, addRoutes_dom_mem] at hT
    by_cases hms : T ∈ s.messages
    · rw [if_pos hms] at hn
      rcases Finset.mem_insert.mp hn with h1 | h1
      · rw [h1]
        exact sname_mem_dictKeys_addService ps s hh
      · by_cases hdom : T ∈ ps.mhDom
        · rw [if_pos hdom] at h1
          exact mem_dictKeys_addService ps s n (h T hdom n h1)
        · rw [if_neg hdom] at h1
          exact absurd h1 (Finset.not_mem_empty n)
    · rw [if_neg hms] at hn
      have hdom : T ∈ ps.mhDom := by
        rcases hT with h1 | h1
        · exact h1
        · exact absurd h1 hms
      exact mem_dictKeys_addService ps s n (h T hdom n hn)
  · rw [addService_mhMap, if_neg hh] at hn
    rw [addService_mhDom, if_neg hh] at hT
    exact mem_dictKeys_addService ps s n (h T hT n hn)

theorem netInv_connectFuel (bw : PeerId → PeerId → ℚ) (fuel : Nat) (σ σ' : Net)
    (a b : PeerId) (h : NetInv σ) (he : connectFuel bw fuel σ a b = some σ') :
    NetInv σ' := by
  induction fuel generalizing σ a b with
  | zero => simp [connectFuel] at he
  | succ n ih =>
    rw [connectFuel] at he
    by_cases hab : isConnected σ a b = true
    · rw [if_pos hab] at he
      obtain rfl := Option.some.inj he
      exact h
    · rw [if_neg hab] at he
      by_cases hba : isConnected (addConn bw σ a b) b a = true
      · rw [if_pos hba] at he
        obtain rfl := Option.some.inj he
        exact netInv_addConn bw σ a b h
      · rw [if_neg hba] at he
        exact ih _ _ _ (netInv_addConn bw σ a b h) he

theorem netInv_connect (bw : PeerId → PeerId → ℚ) (σ : Net) (a b : PeerId)
    (h : NetInv σ) : NetInv (connect bw σ a b) := by
  rw [connect]
  cases hc : connectFuel bw 2 σ a b with
  | none => exact h
  | some σ' => exact netInv_connectFuel bw 2 σ σ' a b h hc

theorem netInv_disconnectFuel (fuel : Nat) (σ σ' : Net) (a b : PeerId)
    (h : NetInv σ) (he : disconnectFuel fuel σ a b = some σ') : NetInv σ' := by
  induction fuel generalizing σ σ' a b with
  | zero => simp [disconnectFuel] at he
  | succ n ih =>
    rw [disconnectFuel] at he
    by_cases hab : isConnected σ a b = true
    · rw [if_pos hab] at he
      have hrm : NetInv (removeConn σ a b) := netInv_removeConn σ a b h
      by_cases hba : isConnected (removeConn σ a b) b a = true
      · rw [if_pos hba] at he
        cases hd : disconnectFuel n (removeConn σ a b) b a with
        | none =>
          rw [hd] at he
          exact absurd he (by simp)
        | some τ =>
          rw [hd] at he
          have he' : some (fireCallbacks τ a b) = some σ' := he
          obtain rfl := Option.some.inj he'
          exact netInv_fireCallbacks _ a b (ih _ _ _ _ hrm hd)
      · rw [if_neg hba] at he
        have he' : some (fireCallbacks (removeConn σ a b) a b) = some σ' := he
        obtain rfl := Option.some.inj he'
        exact netInv_fireCallbacks _ a b hrm
    · rw [if_neg hab] at he
      obtain rfl := Option.some.inj he
      exact h

theorem netInv_disconnect (σ : Net) (a b : PeerId) (h : NetInv σ) :
    NetInv (disconnect σ a b) := by
  rw [disconnect]
  cases hc : disconnectFuel 2 σ a b with
  | none => exact h
  | some σ' => exact netInv_disconnectFuel 2 σ σ' a b h hc

theorem store_ok_fields (ps : PeerState) (nm : String) (i v : Nat)
    (ps' : PeerState) (h : store ps nm i v = .ok ps') :
    ps'.handlers = ps.handlers ∧ ps'.mhDom = ps.mhDom ∧ ps'.mhMap = ps.mhMap := by
  rw [store] at h
  by_cases hnm : nm ∈ ps.storageNames
  · rw [if_pos hnm] at h
    obtain rfl := Except.ok.inj h
    exact ⟨rfl, rfl, rfl⟩
  · rw [if_neg hnm] at h
    exact absurd h (by simp)

theorem addStorage_fields (ps : PeerState) (nm : String) :
    (addStorage ps nm).handlers = ps.handlers ∧
    (addStorage ps nm).mhDom = ps.mhDom ∧
    (addStorage ps nm).mhMap = ps.mhMap := by
  unfold addStorage
  by_cases hnm : nm ∈ ps.storageNames
  · rw [if_pos hnm]
    exact ⟨rfl, rfl, rfl⟩
  · rw [if_neg hnm]
    exact ⟨rfl, rfl, rfl⟩

/-- C7: every peer operation — `add_service`, `connect`, `disconnect`,
`receive`, `send`, `gossip`, `broadcast`, `store`, `add_storage` — preserves
the invariant that every service name appearing in a `mh_map` value set is a
key of the `handlers` dict. -/
theorem claim7_mhmap_references_registered (bw : PeerId → PeerId → ℚ) (op : Op)
    (σ : Net) (h : NetInv σ) : NetInv (Op.apply bw op σ) := by
  cases op with
  | addService p s => exact netInv_update σ p _ h (handlerInv_addService (σ p) s (h p))
  | connect a b => exact netInv_connect bw σ a b h
  | disconnect a b => exact netInv_disconnect σ a b h
  | receive p m => exact h
  | send p r m => exact h
  | gossip p m f E => exact h
  | broadcast p m => exact h
  | store p nm i v =>
    simp only [Op.apply]
    cases hst : P2PSimpy.store (σ p) nm i v with
    | error e => exact h
    | ok ps' =>
      obtain ⟨f1, f2, f3⟩ := store_ok_fields (σ p) nm i v ps' hst
      exact netInv_update σ p ps' h (handlerInv_fields (σ p) ps' f1 f2 f3 (h p))
  | addStorage p nm =>
    obtain ⟨f1, f2, f3⟩ := addStorage_fields (σ p) nm
    exact netInv_update σ p _ h (handlerInv_fields (σ p) _ f1 f2 f3 (h p))

theorem netInv_net₀ : NetInv net₀ := by
  intro p T hT n hn
  simp [net₀] at hT

/-- Witness for C7: the invariant holds of the empty network and is carried
through a concrete `connect` step. -/
theorem claim7_mhmap_references_registered_witness :
    NetInv (Op.apply bw₀ (Op.connect 0 1) net₀) :=
  claim7_mhmap_references_registered bw₀ (Op.connect 0 1) net₀ netInv_net₀

/-- C10: `bootstrap_connect` leaves every `connections` mapping untouched —
both `is_connected` queries return exactly what they returned before — and
its only core effect is the one `Hello` message authored by the caller,
carried by the freshly constructed connection with the initial flag set. -/
theorem claim10_bootstrap_connect_frame (σ : Net) (p other : PeerId) :
    (bootstrapConnect σ p other).1 = σ ∧
    isConnected (bootstrapConnect σ p other).1 p other = isConnected σ p other ∧
    isConnected (bootstrapConnect σ p other).1 other p = isConnected σ other p ∧
    (bootstrapConnect σ p other).2 = [⟨p, other, Hello p, true⟩] ∧
    (Hello p).sender = p ∧ (Hello p).isBase = true :=
  ⟨rfl, rfl, rfl, rfl, rfl, rfl⟩

theorem createPeer_bootstrapPeers (sim : SimState) (t : String) :
    (createPeer sim t).2.bootstrapPeers = sim.bootstrapPeers := rfl

theorem addPeers_choice_eq (bw : PeerId → PeerId → ℚ) (c₁ c₂ : List PeerId → PeerId)
    (bs : List PeerId) (hc : c₁ bs = c₂ bs) :
    ∀ (n : Nat) (t : String) (sim : SimState), sim.bootstrapPeers = bs →
      addPeers bw c₁ sim n t = addPeers bw c₂ sim n t := by
  intro n
  induction n with
  | zero =>
    intro t sim hbs
    rfl
  | succ n ih =>
    intro t sim hbs
    simp only [addPeers]
    have hsv : c₁ (createPeer sim t).2.bootstrapPeers =
        c₂ (createPeer sim t).2.bootstrapPeers := by
      rw [createPeer_bootstrapPeers, hbs, hc]
    rw [hsv]
    exact ih t _ hbs

/-- C8: in the scenario — one bootstrap server, three `basic` peers added
via `add_peers(3, 'basic')`, each bootstrap-connecting to the only bootstrap
server (whichever way `random.choice` picks from the singleton list), the
`Hello`s handled — the graph excluding bootstrap peers has exactly 3
isolated nodes and no edges, while the graph including bootstrap peers has
exactly 3 edges, each incident to the bootstrap node. -/
theorem claim8_scenario_topology (choice : List PeerId → PeerId)
    (hchoice : ∀ l, l ≠ [] → choice l ∈ l) :
    (getGraph (scenarioWith choice) false).1.card = 3 ∧
    (getGraph (scenarioWith choice) false).2 = ∅ ∧
    (getGraph (scenarioWith choice) true).2.card = 3 ∧
    ∀ e ∈ (getGraph (scenarioWith choice) true).2,
      e.1 = "bootstrap_0" ∨ e.2 = "bootstrap_0" := by
  have h0 : choice [0] = 0 := by
    have h := hchoice [0] (by simp)
    simpa using h
  have hs : scenarioWith choice = scenario₀ := by
    rw [scenarioWith, scenario₀, scenarioWith]
    rw [addPeers_choice_eq bw₀ choice (fun l => l.headD 0) [0]
      (by rw [h0]; rfl) 3 "basic" _ rfl]
  rw [hs]
  decide

theorem headD_mem_of_ne_nil : ∀ (l : List PeerId), l ≠ [] → l.headD 0 ∈ l
  | [], h => absurd rfl h
  | _ :: _, _ => by simp

/-- Witness for C8 with the forced choice from the singleton bootstrap
list. -/
theorem claim8_scenario_topology_witness :
    (getGraph (scenarioWith (fun l => l.headD 0)) false).1.card = 3 ∧
    (getGraph (scenarioWith (fun l => l.headD 0)) false).2 = ∅ ∧
    (getGraph (scenarioWith (fun l => l.headD 0)) true).2.card = 3 ∧
    ∀ e ∈ (getGraph (scenarioWith (fun l => l.headD 0)) true).2,
      e.1 = "bootstrap_0" ∨ e.2 = "bootstrap_0" :=
  claim8_scenario_topology (fun l => l.headD 0) headD_mem_of_ne_nil

/-- C9 evaluation: in the populated scenario, `avg_bandwidth` and
`median_bandwidth` both raise `AttributeError` — they iterate the `peers`
dict, hence the peer-type name strings, not the peers — while the mean the
spec describes is defined and equals 10. -/
theorem claim9_bandwidth_stats_crash :
    avg_bandwidth scenario₀ = .error .attributeError ∧
    median_bandwidth scenario₀ = .error .attributeError ∧
    avg_bandwidth_ofSpec scenario₀ = some 10 := by
  refine ⟨rfl, rfl, ?_⟩
  have hb : allPeerConnBandwidths scenario₀ = [10, 10, 10] := rfl
  rw [avg_bandwidth_ofSpec, hb]
  norm_num

end P2PSimpy
